import Mathlib

/-!
Shallow embedding of the `recaller` retry library (src/lib/index.js).

Modelling conventions:
* JavaScript numbers are modelled as rationals (`ℚ`); `Math.floor` is `Int.floor`,
  and `Math.random()` is an explicit parameter `r` with `0 ≤ r < 1`.
* A JavaScript value that may be `undefined` is an `Option`; the idiom `x || d`
  (which replaces both an absent value and the number `0` by the default `d`)
  is `orDefault`.
* The argument slots of `recaller` that are checked with `typeof` are modelled
  by `Arg`: a value can be absent (falsy), present but not callable, or a
  function.
* The retried operation is modelled by what it does on each attempt number:
  whether it calls `bail` (and with which argument), and whether its promise
  resolves or rejects.  The `onretry` observer's invocation can return
  normally, return a promise that later rejects (the source ignores the return
  value, so this is distinct from throwing), or throw synchronously.
* The orchestrator's generator loop is modelled by `runLoop`, structurally
  recursive on a fuel argument; `recaller` supplies fuel `retries + 1`, which
  the loop never exhausts since each iteration either terminates or increments
  `attempt`, and iterations with `attempt > retries` terminate.
* Besides the final result the run produces a trace: the attempt numbers the
  operation was invoked with, the observer invocations `(err, attempt,
  delayTime)`, and the delays actually awaited (`yield delay(delayTime)` runs
  only when `delayTime` is truthy, i.e. nonzero).
-/

namespace Recaller

/-- JS `x || d` for an optional numeric option: absent or `0` falls back to `d`. -/
def orDefault (x : Option ℚ) (d : ℚ) : ℚ :=
  match x with
  | none => d
  | some v => if v = 0 then d else v

/-- `randomBetween(min, max)` from the source:
`Math.floor(Math.random() * (max - min + 1) + min)`, with the random sample
`r ∈ [0,1)` made explicit. -/
def randomBetween (min max r : ℚ) : ℚ :=
  ((⌊r * (max - min + 1) + min⌋ : ℤ) : ℚ)

/-- Options record for `exponentialBackoff` and its jittered wrappers. -/
structure ExpOpts where
  base : Option ℚ := none
  cap : Option ℚ := none
  factor : Option ℚ := none

/-- `constantBackoff(ms)`: returns `() => ms` with `ms = ms || 5000`. -/
def constantBackoff (ms : Option ℚ) : ℕ → ℚ :=
  fun _ => orDefault ms 5000

/-- `exponentialBackoff(opts)`: `(attempt) => Math.min(cap, base * factor ^ (attempt - 1))`
with `base = opts.base || 1000`, `cap = opts.cap || 60000`, `factor = opts.factor || 2`.
Attempts are 1-based, so the exponent `attempt - 1` is natural subtraction. -/
def exponentialBackoff (opts : Option ExpOpts) : ℕ → ℚ :=
  let o := opts.getD {}
  let base := orDefault o.base 1000
  let cap := orDefault o.cap 60000
  let factor := orDefault o.factor 2
  fun attempt => min cap (base * factor ^ (attempt - 1))

/-- `fullJitterBackoff(opts)`: `(attempt) => randomBetween(0, gen(attempt))`
where `gen = exponentialBackoff(opts)`. -/
def fullJitterBackoff (opts : Option ExpOpts) (attempt : ℕ) (r : ℚ) : ℚ :=
  randomBetween 0 (exponentialBackoff opts attempt) r

/-- `equalJitterBackoff(opts)`: `halfDelay = gen(attempt) / 2;
return halfDelay + randomBetween(0, halfDelay)` where `gen = exponentialBackoff(opts)`. -/
def equalJitterBackoff (opts : Option ExpOpts) (attempt : ℕ) (r : ℚ) : ℚ :=
  let halfDelay := exponentialBackoff opts attempt / 2
  halfDelay + randomBetween 0 halfDelay r

/-- Options record for `decorrelatedJitterBackoff`. -/
structure DJOpts where
  base : Option ℚ := none
  cap : Option ℚ := none
  times : Option ℚ := none

/-- The closure state of a `decorrelatedJitterBackoff` generator: the defaulted
parameters together with the mutable `lastSleep`. -/
structure DJState where
  base : ℚ
  cap : ℚ
  times : ℚ
  lastSleep : ℚ
deriving DecidableEq

/-- `decorrelatedJitterBackoff(opts)`: builds the generator's initial closure
state, with `base = opts.base || 1000`, `cap = opts.cap || 60000`,
`times = opts.times || 3` and `lastSleep` initialised to `base`. -/
def decorrelatedJitterBackoff (opts : Option DJOpts) : DJState :=
  let o := opts.getD {}
  let base := orDefault o.base 1000
  { base := base
    cap := orDefault o.cap 60000
    times := orDefault o.times 3
    lastSleep := base }

/-- One call of a decorrelated-jitter generator:
`sleep = Math.min(cap, randomBetween(base, lastSleep * times)); lastSleep = sleep;
return sleep`. -/
def DJState.next (s : DJState) (r : ℚ) : ℚ × DJState :=
  let sleep := min s.cap (randomBetween s.base (s.lastSleep * s.times) r)
  (sleep, { s with lastSleep := sleep })

/-- Repeated calls of a decorrelated-jitter generator, one per random sample;
returns the list of returned delays. -/
def DJState.run (s : DJState) : List ℚ → List ℚ
  | [] => []
  | r :: rs => ((s.next r).1) :: ((s.next r).2.run rs)

/-- An argument slot validated with `typeof x !== 'function'`: the value can be
absent (falsy), present but not callable, or an actual function. -/
inductive Arg (τ : Type) where
  | missing
  | notAFunction
  | func (f : τ)

/-- The function held by an `Arg`, if any. -/
def Arg.toOption : Arg τ → Option τ
  | .func f => some f
  | _ => none

/-- Embed an optional function into an `Arg`. -/
def Arg.ofOption : Option τ → Arg τ
  | none => .missing
  | some f => .func f

/-- Errors surfaced by the orchestrator: either a value the caller's code threw
(operation error, observer error, bail argument), or an `Error` the library
itself constructs from a message string. -/
inductive RError (ε : Type) where
  | thrown (e : ε)
  | jsError (msg : String)
deriving DecidableEq

/-- `bail(err)` rejects with `err || new Error('Bailed without giving a reason.')`;
calling `bail` with no (or a falsy) argument is `none`. -/
def bailError (e : Option ε) : RError ε :=
  match e with
  | some err => .thrown err
  | none => .jsError "Bailed without giving a reason."

/-- What one invocation of the retried operation does: whether it calls `bail`
during the attempt (`some none` = `bail()` with no argument, `some (some e)` =
`bail(e)`), and how its promise settles. -/
structure AttemptBehavior (α ε : Type) where
  bailArg : Option (Option ε) := none
  outcome : Except ε α

/-- The retried operation, described by its behaviour on each (1-based) attempt
number. -/
def Operation (α ε : Type) : Type := ℕ → AttemptBehavior α ε

/-- What one invocation of the `onretry` observer does.  The source calls the
observer without awaiting its return value, so a returned promise that later
rejects (`okRejectsLater`) is distinct from a synchronous throw (`throws`). -/
inductive ObsResult (ε : Type) where
  | ok
  | okRejectsLater (e : ε)
  | throws (e : ε)
deriving DecidableEq

/-- The `onretry` observer: receives `(err, attempt, delayTime)`. -/
def ObserverFn (ε : Type) : Type := ε → ℕ → ℚ → ObsResult ε

/-- The options object passed to `recaller`. -/
structure Opts (ε : Type) where
  retries : Option ℕ := none
  backoff : Option (ℕ → ℚ) := none
  onretry : Arg (ObserverFn ε) := .missing

/-- `opts.retries || 10`: absent or `0` falls back to the default of 10. -/
def effRetries (retries : Option ℕ) : ℕ :=
  match retries with
  | none => 10
  | some 0 => 10
  | some (n + 1) => n + 1

/-- `delayTime`: `0` if no backoff generator is configured, else `backoff(attempt)`. -/
def delayTimeOf (backoff : Option (ℕ → ℚ)) (attempt : ℕ) : ℚ :=
  match backoff with
  | none => 0
  | some f => f attempt

deriving instance DecidableEq for Except

/-- Observable outcome of one orchestrator call: the settled result plus the
trace of attempt numbers passed to the operation, observer invocations
`(err, attempt, delayTime)`, and the delays actually awaited. -/
structure RunOut (α ε : Type) where
  result : Except (RError ε) α
  calls : List ℕ
  observerCalls : List (ε × ℕ × ℚ)
  delaysAwaited : List ℚ
deriving DecidableEq

/-- The generator loop of `recaller` (src/lib/index.js lines 59-80), one
iteration per `fuel` step.  Each iteration increments `attempt`, invokes the
operation, and then: stops with the bail error if `bail` was called during the
attempt; returns the resolved value on success; rethrows the attempt's error
once `attempt > retries`; otherwise notifies the observer (a synchronous throw
there rejects the run), awaits the delay when it is nonzero, and loops. -/
def runLoop (fn : Operation α ε) (retries : ℕ) (backoff : Option (ℕ → ℚ))
    (onretry : Option (ObserverFn ε)) : ℕ → ℕ → RunOut α ε
  | 0, _ =>
    { result := .error (.jsError "out of fuel"), calls := [], observerCalls := [],
      delaysAwaited := [] }
  | fuel + 1, attempt =>
    match (fn attempt).bailArg with
    | some e =>
      { result := .error (bailError e), calls := [attempt], observerCalls := [],
        delaysAwaited := [] }
    | none =>
      match (fn attempt).outcome with
      | .ok v =>
        { result := .ok v, calls := [attempt], observerCalls := [], delaysAwaited := [] }
      | .error err =>
        if attempt > retries then
          { result := .error (.thrown err), calls := [attempt], observerCalls := [],
            delaysAwaited := [] }
        else
          match onretry with
          | some obs =>
            match obs err attempt (delayTimeOf backoff attempt) with
            | .throws e =>
              { result := .error (.thrown e), calls := [attempt],
                observerCalls := [(err, attempt, delayTimeOf backoff attempt)],
                delaysAwaited := [] }
            | _ =>
              let rest := runLoop fn retries backoff onretry fuel (attempt + 1)
              { result := rest.result
                calls := attempt :: rest.calls
                observerCalls := (err, attempt, delayTimeOf backoff attempt) :: rest.observerCalls
                delaysAwaited :=
                  (if delayTimeOf backoff attempt = 0 then [] else [delayTimeOf backoff attempt])
                    ++ rest.delaysAwaited }
          | none =>
            let rest := runLoop fn retries backoff onretry fuel (attempt + 1)
            { result := rest.result
              calls := attempt :: rest.calls
              observerCalls := rest.observerCalls
              delaysAwaited :=
                (if delayTimeOf backoff attempt = 0 then [] else [delayTimeOf backoff attempt])
                  ++ rest.delaysAwaited }

/-- `recaller(fn, opts)`: validates that `fn` is a function and that a provided
`onretry` is a function, then runs the retry loop starting at attempt 1 with
`retries = opts.retries || 10`.  The fuel `retries + 1` is exact: the loop
recurses only while `attempt <= retries`. -/
def recaller (fnArg : Arg (Operation α ε)) (optsArg : Option (Opts ε)) : RunOut α ε :=
  match fnArg with
  | .func fn =>
    let opts := optsArg.getD {}
    match opts.onretry with
    | .notAFunction =>
      { result := .error (.jsError "onretry handler is not a function"), calls := [],
        observerCalls := [], delaysAwaited := [] }
    | _ =>
      runLoop fn (effRetries opts.retries) opts.backoff opts.onretry.toOption
        (effRetries opts.retries + 1) 1
  | _ =>
    { result := .error (.jsError "fn is not a function"), calls := [], observerCalls := [],
      delaysAwaited := [] }

/-- The observer trace an exhausting run leaves behind: one `(err, attempt,
delayTime)` triple per retried attempt when an observer is configured. -/
def obsTrace (onretry : Option (ObserverFn ε)) (E : ℕ → ε) (backoff : Option (ℕ → ℚ))
    (attempts : List ℕ) : List (ε × ℕ × ℚ) :=
  match onretry with
  | none => []
  | some _ => attempts.map fun i => (E i, i, delayTimeOf backoff i)

/-- The delays an exhausting run awaits: the nonzero `delayTime`s of the
retried attempts. -/
def delayTrace (backoff : Option (ℕ → ℚ)) (attempts : List ℕ) : List ℚ :=
  (attempts.map fun i => if delayTimeOf backoff i = 0 then [] else [delayTimeOf backoff i]).flatten

/-- An operation that rejects on every attempt, with attempt `n` rejecting
with error `n`. -/
def alwaysFailFn : Operation ℕ ℕ := fun n => { outcome := .error n }

/-- An operation that resolves with `42` on every attempt. -/
def successFn : Operation ℕ ℕ := fun _ => { outcome := .ok 42 }

/-- An operation that fails on attempt 1, then on attempt 2 calls `bail(7)`
and also rejects with `9`. -/
def bailingFn : Operation ℕ ℕ := fun n =>
  if n = 2 then { bailArg := some (some 7), outcome := .error 9 }
  else { outcome := .error n }

/-- An observer that returns normally on every invocation. -/
def benignObs : ObserverFn ℕ := fun _ _ _ => .ok

/-- An observer that throws `99` synchronously on every invocation. -/
def alwaysThrowObs : ObserverFn ℕ := fun _ _ _ => .throws 99

/-- An observer that returns a promise that later rejects with `99`. -/
def rejectingObs : ObserverFn ℕ := fun _ _ _ => .okRejectsLater 99

example : exponentialBackoff none 3 = 4000 := by
  norm_num [exponentialBackoff, orDefault]
example : exponentialBackoff (some { cap := some 3000 }) 3 = 3000 := by
  norm_num [exponentialBackoff, orDefault]
example : constantBackoff (some 300) 2 = 300 := by
  norm_num [constantBackoff, orDefault]
example : randomBetween 0 10 (1/2) = 5 := by
  norm_num [randomBetween]

/-- Every attempt number the loop passes to the operation is at least the
attempt it starts from. -/
theorem calls_ge (fn : Operation α ε) (retries : ℕ) (B : Option (ℕ → ℚ))
    (O : Option (ObserverFn ε)) :
    ∀ fuel a m, m ∈ (runLoop fn retries B O fuel a).calls → a ≤ m := by
  intro fuel
  induction fuel with
  | zero => intro a m hm; simp [runLoop] at hm
  | succ k ih =>
    intro a m hm
    rcases hb : (fn a).bailArg with _ | e
    · rcases ho : (fn a).outcome with err | v
      case error =>
        by_cases hr : retries < a
        · simp [runLoop, hb, ho, hr] at hm
          omega
        · rcases O with _ | obs
          · simp [runLoop, hb, ho, hr] at hm
            rcases hm with rfl | hm
            · exact le_refl _
            · exact le_trans (Nat.le_succ a) (ih (a + 1) m hm)
          · rcases hres : obs err a (delayTimeOf B a) with _ | e | e <;>
              simp [runLoop, hb, ho, hr, hres] at hm
            · rcases hm with rfl | hm
              · exact le_refl _
              · exact le_trans (Nat.le_succ a) (ih (a + 1) m hm)
            · rcases hm with rfl | hm
              · exact le_refl _
              · exact le_trans (Nat.le_succ a) (ih (a + 1) m hm)
            · omega
      case ok =>
        simp [runLoop, hb, ho] at hm
        omega
    · simp [runLoop, hb] at hm
      omega

/-- If the loop reaches an attempt `N` on which the operation calls `bail`,
the run settles with the bail error and the loop performs no attempt `N + 1`. -/
theorem runLoop_bail (fn : Operation α ε) (retries : ℕ) (B : Option (ℕ → ℚ))
    (O : Option (ObserverFn ε)) (N : ℕ) (e : Option ε) (hbail : (fn N).bailArg = some e) :
    ∀ fuel a, N ∈ (runLoop fn retries B O fuel a).calls →
      (runLoop fn retries B O fuel a).result = .error (bailError e) ∧
      N + 1 ∉ (runLoop fn retries B O fuel a).calls := by
  intro fuel
  induction fuel with
  | zero => intro a hm; simp [runLoop] at hm
  | succ k ih =>
    intro a hm
    by_cases haN : a = N
    · subst haN
      simp [runLoop, hbail]
    · rcases hb : (fn a).bailArg with _ | e'
      · rcases ho : (fn a).outcome with err | v
        · by_cases hr : retries < a
          · simp [runLoop, hb, ho, hr] at hm
            exact absurd hm.symm haN
          · rcases O with _ | obs
            · simp only [runLoop, hb, ho] at hm ⊢
              rw [if_neg hr] at hm ⊢
              simp only [List.mem_cons] at hm ⊢
              rcases hm with rfl | hm
              · exact absurd rfl haN
              · have h2 := ih (a + 1) hm
                have hge := calls_ge fn retries B none k (a + 1) N hm
                refine ⟨h2.1, ?_⟩
                rintro (h | h)
                · omega
                · exact h2.2 h
            · simp only [runLoop, hb, ho] at hm ⊢
              rw [if_neg hr] at hm ⊢
              rcases hres : obs err a (delayTimeOf B a) with _ | e'' | e'' <;>
                simp only [hres, List.mem_cons] at hm ⊢
              · rcases hm with rfl | hm
                · exact absurd rfl haN
                · have h2 := ih (a + 1) hm
                  have hge := calls_ge fn retries B (some obs) k (a + 1) N hm
                  refine ⟨h2.1, ?_⟩
                  rintro (h | h)
                  · omega
                  · exact h2.2 h
              · rcases hm with rfl | hm
                · exact absurd rfl haN
                · have h2 := ih (a + 1) hm
                  have hge := calls_ge fn retries B (some obs) k (a + 1) N hm
                  refine ⟨h2.1, ?_⟩
                  rintro (h | h)
                  · omega
                  · exact h2.2 h
              · rcases hm with rfl | hm
                · exact absurd rfl haN
                · simp at hm
        · simp [runLoop, hb, ho] at hm
          exact absurd hm.symm haN
      · simp [runLoop, hb] at hm
        exact absurd hm.symm haN

/-- If the loop reaches an attempt `N` whose failure is retriable
(`N ≤ retries`, no bail) and the observer invocation for it throws `x`, the
run settles with error `x` and no attempt `N + 1` occurs. -/
theorem runLoop_obsThrow (fn : Operation α ε) (retries : ℕ) (B : Option (ℕ → ℚ))
    (obs : ObserverFn ε) (N : ℕ) (err : ε) (x : ε)
    (hnb : (fn N).bailArg = none) (hout : (fn N).outcome = .error err)
    (hNr : N ≤ retries) (hth : obs err N (delayTimeOf B N) = .throws x) :
    ∀ fuel a, N ∈ (runLoop fn retries B (some obs) fuel a).calls →
      (runLoop fn retries B (some obs) fuel a).result = .error (.thrown x) ∧
      N + 1 ∉ (runLoop fn retries B (some obs) fuel a).calls := by
  intro fuel
  induction fuel with
  | zero => intro a hm; simp [runLoop] at hm
  | succ k ih =>
    intro a hm
    by_cases haN : a = N
    · subst haN
      have hr : ¬ retries < a := by omega
      simp only [runLoop, hnb, hout] at hm ⊢
      rw [if_neg hr] at hm ⊢
      simp [hth]
    · rcases hb : (fn a).bailArg with _ | e'
      · rcases ho : (fn a).outcome with err' | v
        · by_cases hr : retries < a
          · simp [runLoop, hb, ho, hr] at hm
            exact absurd hm.symm haN
          · simp only [runLoop, hb, ho] at hm ⊢
            rw [if_neg hr] at hm ⊢
            rcases hres : obs err' a (delayTimeOf B a) with _ | e'' | e'' <;>
              simp only [hres, List.mem_cons] at hm ⊢
            · rcases hm with rfl | hm
              · exact absurd rfl haN
              · have h2 := ih (a + 1) hm
                have hge := calls_ge fn retries B (some obs) k (a + 1) N hm
                refine ⟨h2.1, ?_⟩
                rintro (h | h)
                · omega
                · exact h2.2 h
            · rcases hm with rfl | hm
              · exact absurd rfl haN
              · have h2 := ih (a + 1) hm
                have hge := calls_ge fn retries B (some obs) k (a + 1) N hm
                refine ⟨h2.1, ?_⟩
                rintro (h | h)
                · omega
                · exact h2.2 h
            · rcases hm with rfl | hm
              · exact absurd rfl haN
              · simp at hm
        · simp [runLoop, hb, ho] at hm
          exact absurd hm.symm haN
      · simp [runLoop, hb] at hm
        exact absurd hm.symm haN

/-- The observer trace of no attempts is empty. -/
theorem obsTrace_nil (O : Option (ObserverFn ε)) (E : ℕ → ε) (B : Option (ℕ → ℚ)) :
    obsTrace O E B [] = [] := by
  cases O <;> rfl

/-- With an operation that fails on every attempt without bailing and an
observer that never throws, the loop started at attempt `a` with exact fuel
performs attempts `a, a+1, ..., retries+1`, notifies the observer once per
retried attempt, awaits the nonzero delays of those attempts, and settles
with the error of the final attempt `retries + 1`. -/
theorem runLoop_exhaust (fn : Operation α ε) (E : ℕ → ε) (retries : ℕ) (B : Option (ℕ → ℚ))
    (O : Option (ObserverFn ε))
    (hfail : ∀ n, (fn n).bailArg = none ∧ (fn n).outcome = .error (E n))
    (hobs : ∀ obs, O = some obs → ∀ e n d x, obs e n d ≠ .throws x) :
    ∀ fuel a, a + fuel = retries + 2 → 1 ≤ fuel →
      runLoop fn retries B O fuel a =
        { result := .error (.thrown (E (retries + 1)))
          calls := List.range' a fuel
          observerCalls := obsTrace O E B (List.range' a (fuel - 1))
          delaysAwaited := delayTrace B (List.range' a (fuel - 1)) } := by
  intro fuel
  induction fuel with
  | zero => intro a _ h1; exact absurd h1 (by omega)
  | succ k ih =>
    intro a hsum _
    obtain ⟨hnb, hout⟩ := hfail a
    rcases Nat.eq_zero_or_pos k with rfl | hk
    · have ha : a = retries + 1 := by omega
      have hr : retries < a := by omega
      rw [runLoop]
      simp only [hnb, hout]
      rw [if_pos hr, ha]
      simp [List.range', obsTrace_nil, delayTrace]
    · obtain ⟨k', rfl⟩ : ∃ k', k = k' + 1 := ⟨k - 1, by omega⟩
      have hr : ¬ retries < a := by omega
      have hrec := ih (a + 1) (by omega) (by omega)
      rcases O with _ | obs
      · rw [runLoop]
        simp only [hnb, hout]
        rw [if_neg hr, hrec]
        simp only [RunOut.mk.injEq, Nat.add_sub_cancel]
        refine ⟨trivial, ?_, ?_, ?_⟩
        · exact (List.range'_succ a (k' + 1) 1).symm
        · simp [obsTrace]
        · rw [List.range'_succ a k' 1]
          simp [delayTrace]
      · rcases hres : obs (E a) a (delayTimeOf B a) with _ | e'' | e''
        · rw [runLoop]
          simp only [hnb, hout]
          rw [if_neg hr]
          simp only [hres]
          rw [hrec]
          simp only [RunOut.mk.injEq, Nat.add_sub_cancel]
          refine ⟨trivial, ?_, ?_, ?_⟩
          · exact (List.range'_succ a (k' + 1) 1).symm
          · rw [List.range'_succ a k' 1]
            simp [obsTrace]
          · rw [List.range'_succ a k' 1]
            simp [delayTrace]
        · rw [runLoop]
          simp only [hnb, hout]
          rw [if_neg hr]
          simp only [hres]
          rw [hrec]
          simp only [RunOut.mk.injEq, Nat.add_sub_cancel]
          refine ⟨trivial, ?_, ?_, ?_⟩
          · exact (List.range'_succ a (k' + 1) 1).symm
          · rw [List.range'_succ a k' 1]
            simp [obsTrace]
          · rw [List.range'_succ a k' 1]
            simp [delayTrace]
        · exact absurd hres (hobs obs rfl (E a) a (delayTimeOf B a) e'')

/-- With no backoff generator configured no delay is ever awaited. -/
theorem delayTrace_none (l : List ℕ) : delayTrace none l = [] := by
  induction l with
  | nil => rfl
  | cons a l ih =>
    simp only [delayTrace, delayTimeOf, List.map_cons, List.flatten_cons, if_pos rfl,
      List.nil_append] at ih ⊢
    exact ih

/-- `opts.retries || 10` leaves a positive retry count unchanged. -/
theorem effRetries_of_pos (R : ℕ) (hR : 1 ≤ R) : effRetries (some R) = R := by
  cases R with
  | zero => exact absurd hR (by omega)
  | succ n => rfl

/-- C2 (amended: the retry budget `R` must be at least 1, since `retries: 0`
falls back to the default 10 via `opts.retries || 10`): with `retries = R ≥ 1`
and an operation that fails on every attempt without bailing (and an observer,
if any, that never throws), the operation is invoked exactly `R + 1` times and
the final failure is the error of the last attempt, attempt `R + 1`. -/
theorem exhaustion_invokes_retries_plus_one (R : ℕ) (hR : 1 ≤ R) (fn : Operation α ε)
    (E : ℕ → ε) (B : Option (ℕ → ℚ)) (O : Option (ObserverFn ε))
    (hfail : ∀ n, (fn n).bailArg = none ∧ (fn n).outcome = .error (E n))
    (hobs : ∀ obs, O = some obs → ∀ e n d x, obs e n d ≠ .throws x) :
    (recaller (.func fn)
      (some { retries := some R, backoff := B, onretry := .ofOption O })).calls.length = R + 1 ∧
    (recaller (.func fn)
      (some { retries := some R, backoff := B, onretry := .ofOption O })).result =
      .error (.thrown (E (R + 1))) := by
  rcases O with _ | obs
  · simp only [recaller, Arg.ofOption, Arg.toOption, Option.getD_some]
    rw [effRetries_of_pos R hR]
    rw [runLoop_exhaust fn E R B none hfail (by intro obs h; cases h) (R + 1) 1 (by omega)
      (by omega)]
    constructor
    · simp
    · rfl
  · simp only [recaller, Arg.ofOption, Arg.toOption, Option.getD_some]
    rw [effRetries_of_pos R hR]
    rw [runLoop_exhaust fn E R B (some obs) hfail hobs (R + 1) 1 (by omega) (by omega)]
    constructor
    · simp
    · rfl

/-- C2 counterexample: the claim fails at retry budget `R = 0`.  With
`retries: 0` the source computes `0 || 10 = 10`, so an always-failing
operation is invoked 11 times, not `0 + 1 = 1`. -/
theorem retry_budget_zero_counterexample :
    (recaller (.func alwaysFailFn) (some { retries := some 0 })).calls.length = 11 ∧
    (recaller (.func alwaysFailFn) (some { retries := some 0 })).calls.length ≠ 0 + 1 := by
  decide

/-- C1 (amended): `config.retries = 0` is falsy, so `opts.retries || 10`
replaces it by the default 10.  With an operation that fails on every attempt
and a never-throwing observer configured, the operation is invoked 11 times
(not once), the failure of attempt 11 is the final result, the observer is
called 10 times (not never), and — with no backoff configured — no delay is
awaited. -/
theorem retries_zero_uses_default (fn : Operation α ε) (E : ℕ → ε) (obs : ObserverFn ε)
    (hfail : ∀ n, (fn n).bailArg = none ∧ (fn n).outcome = .error (E n))
    (hobs : ∀ e n d x, obs e n d ≠ .throws x) :
    (recaller (.func fn)
      (some { retries := some 0, backoff := none, onretry := .func obs })).calls.length = 11 ∧
    (recaller (.func fn)
      (some { retries := some 0, backoff := none, onretry := .func obs })).result =
      .error (.thrown (E 11)) ∧
    (recaller (.func fn)
      (some { retries := some 0, backoff := none, onretry := .func obs })).observerCalls.length
      = 10 ∧
    (recaller (.func fn)
      (some { retries := some 0, backoff := none, onretry := .func obs })).delaysAwaited = [] := by
  simp only [recaller, Arg.toOption, Option.getD_some]
  rw [show effRetries (some 0) = 10 from rfl]
  rw [runLoop_exhaust fn E 10 none (some obs) hfail
    (by intro obs' h e n d x; cases h; exact hobs e n d x) 11 1 (by omega) (by omega)]
  refine ⟨by simp, rfl, ?_, ?_⟩
  · simp [obsTrace]
  · exact delayTrace_none _

/-- C1 counterexample: with `config.retries = 0` and an always-failing
operation, the operation is invoked 11 times (the claim says exactly once)
and the configured observer is called (the claim says never). -/
theorem retries_zero_claim_counterexample :
    (recaller (.func alwaysFailFn)
      (some { retries := some 0, backoff := none, onretry := .func benignObs })).calls.length
      = 11 ∧
    (recaller (.func alwaysFailFn)
      (some { retries := some 0, backoff := none, onretry := .func benignObs })).observerCalls
      ≠ [] := by
  decide

/-- C3: if the run reaches an attempt `N` during which the operation calls
`bail(e)`, the final result is a failure with the bail error — the default
`"Bailed without giving a reason."` error when `bail` got no argument — and no
attempt `N + 1` occurs, regardless of whether attempt `N` also resolved or
rejected. -/
theorem bail_aborts (fn : Operation α ε) (optsArg : Option (Opts ε)) (N : ℕ) (e : Option ε)
    (hbail : (fn N).bailArg = some e)
    (hmem : N ∈ (recaller (.func fn) optsArg).calls) :
    (recaller (.func fn) optsArg).result = .error (bailError e) ∧
    N + 1 ∉ (recaller (.func fn) optsArg).calls ∧
    bailError (none : Option ε) = .jsError "Bailed without giving a reason." := by
  rcases optsArg with _ | opts
  · simp only [recaller, Option.getD_none] at hmem ⊢
    have h := runLoop_bail fn _ _ _ N e hbail _ 1 hmem
    exact ⟨h.1, h.2, rfl⟩
  · rcases ho : opts.onretry with _ | _ | obs
    · simp only [recaller, Option.getD_some, ho, Arg.toOption] at hmem ⊢
      have h := runLoop_bail fn _ _ _ N e hbail _ 1 hmem
      exact ⟨h.1, h.2, rfl⟩
    · simp [recaller, ho] at hmem
    · simp only [recaller, Option.getD_some, ho, Arg.toOption] at hmem ⊢
      have h := runLoop_bail fn _ _ _ N e hbail _ 1 hmem
      exact ⟨h.1, h.2, rfl⟩

/-- C4 (amended: only a synchronous throw from the observer aborts; a promise
returned by the observer is not awaited, so its later rejection is ignored):
if the run reaches a non-exhausting failed attempt `N` (no bail, `N` within
the retry budget) and the observer invocation for it throws `x`, the final
result is the failure `x` — not the operation's error — and no attempt `N + 1`
occurs. -/
theorem observer_throw_aborts (fn : Operation α ε) (R : Option ℕ) (B : Option (ℕ → ℚ))
    (obs : ObserverFn ε) (N : ℕ) (err x : ε)
    (hnb : (fn N).bailArg = none) (hout : (fn N).outcome = .error err)
    (hNr : N ≤ effRetries R) (hth : obs err N (delayTimeOf B N) = .throws x)
    (hmem : N ∈ (recaller (.func fn)
      (some { retries := R, backoff := B, onretry := .func obs })).calls) :
    (recaller (.func fn)
      (some { retries := R, backoff := B, onretry := .func obs })).result =
      .error (.thrown x) ∧
    N + 1 ∉ (recaller (.func fn)
      (some { retries := R, backoff := B, onretry := .func obs })).calls := by
  simp only [recaller, Option.getD_some, Arg.toOption] at hmem ⊢
  exact runLoop_obsThrow fn (effRetries R) B obs N err x hnb hout hNr hth _ 1 hmem

/-- C4 counterexample: an observer that returns a later-rejecting promise does
not abort the run.  With `retries = 1`, an always-failing operation and an
observer whose returned promise rejects with `99` on attempt 1, a second
attempt still occurs and the final failure is the operation's error `2`, not
`99`. -/
theorem observer_rejection_ignored_counterexample :
    (recaller (.func alwaysFailFn)
      (some { retries := some 1, backoff := none, onretry := .func rejectingObs })).calls
      = [1, 2] ∧
    (recaller (.func alwaysFailFn)
      (some { retries := some 1, backoff := none, onretry := .func rejectingObs })).result
      = .error (.thrown 2) ∧
    (recaller (.func alwaysFailFn)
      (some { retries := some 1, backoff := none, onretry := .func rejectingObs })).result
      ≠ .error (.thrown 99) := by
  decide

/-- C6: an operation that succeeds on attempt 1 with value `v` without bailing
is invoked exactly once and the run returns success with `v`, for every
(valid) configuration. -/
theorem success_short_circuits (fn : Operation α ε) (v : α) (optsArg : Option (Opts ε))
    (h1 : (fn 1).bailArg = none) (h2 : (fn 1).outcome = .ok v)
    (hval : ∀ o, optsArg = some o → o.onretry ≠ Arg.notAFunction) :
    (recaller (.func fn) optsArg).result = .ok v ∧
    (recaller (.func fn) optsArg).calls = [1] := by
  have key : ∀ (retries : ℕ) (B : Option (ℕ → ℚ)) (O : Option (ObserverFn ε)),
      runLoop fn retries B O (retries + 1) 1 =
        { result := .ok v, calls := [1], observerCalls := [], delaysAwaited := [] } := by
    intro retries B O
    rw [runLoop]
    simp [h1, h2]
  rcases optsArg with _ | opts
  · simp only [recaller, Option.getD_none]
    rw [key]
    exact ⟨rfl, rfl⟩
  · rcases ho : opts.onretry with _ | _ | obs
    · simp only [recaller, Option.getD_some, ho, Arg.toOption]
      rw [key]
      exact ⟨rfl, rfl⟩
    · exact absurd ho (hval opts rfl)
    · simp only [recaller, Option.getD_some, ho, Arg.toOption]
      rw [key]
      exact ⟨rfl, rfl⟩

/-- C9: a missing or non-callable operation fails the call immediately with
the `"fn is not a function"` error and a present but non-callable `onretry`
fails it immediately with the distinct `"onretry handler is not a function"`
error; in all three cases no attempt runs (the calls trace is empty). -/
theorem invalid_inputs_fail_before_attempts (α ε : Type) :
    (∀ optsArg : Option (Opts ε), recaller (α := α) .missing optsArg =
      { result := .error (.jsError "fn is not a function"), calls := [],
        observerCalls := [], delaysAwaited := [] }) ∧
    (∀ optsArg : Option (Opts ε), recaller (α := α) .notAFunction optsArg =
      { result := .error (.jsError "fn is not a function"), calls := [],
        observerCalls := [], delaysAwaited := [] }) ∧
    (∀ (fn : Operation α ε) (opts : Opts ε), opts.onretry = .notAFunction →
      recaller (.func fn) (some opts) =
      { result := .error (.jsError "onretry handler is not a function"), calls := [],
        observerCalls := [], delaysAwaited := [] }) ∧
    "fn is not a function" ≠ "onretry handler is not a function" := by
  refine ⟨fun _ => rfl, fun _ => rfl, ?_, by decide⟩
  intro fn opts h
  simp [recaller, h]

/-- Witness for C2's theorem at `R = 1` with an always-failing operation, no
backoff and no observer: two invocations, final failure is attempt 2's error. -/
theorem exhaustion_invokes_retries_plus_one_witness :
    (recaller (.func alwaysFailFn)
      (some { retries := some 1, backoff := none, onretry := .ofOption none })).calls.length
      = 1 + 1 ∧
    (recaller (.func alwaysFailFn)
      (some { retries := some 1, backoff := none, onretry := .ofOption none })).result =
      .error (.thrown 2) :=
  exhaustion_invokes_retries_plus_one 1 (by decide) alwaysFailFn (fun n => n) none none
    (fun _ => ⟨rfl, rfl⟩) (by intro obs h; cases h)

/-- Witness for C1's amended theorem with an always-failing operation and a
benign observer. -/
theorem retries_zero_uses_default_witness :
    (recaller (.func alwaysFailFn)
      (some { retries := some 0, backoff := none, onretry := .func benignObs })).calls.length
      = 11 ∧
    (recaller (.func alwaysFailFn)
      (some { retries := some 0, backoff := none, onretry := .func benignObs })).result =
      .error (.thrown 11) ∧
    (recaller (.func alwaysFailFn)
      (some { retries := some 0, backoff := none, onretry := .func benignObs })).observerCalls.length
      = 10 ∧
    (recaller (.func alwaysFailFn)
      (some { retries := some 0, backoff := none, onretry := .func benignObs })).delaysAwaited
      = [] :=
  retries_zero_uses_default alwaysFailFn (fun n => n) benignObs (fun _ => ⟨rfl, rfl⟩)
    (by intro e n d x h; simp [benignObs] at h)

/-- Witness for C3's theorem: `bailingFn` calls `bail(7)` on attempt 2, so the
run fails with `7` and no attempt 3 occurs. -/
theorem bail_aborts_witness :
    (recaller (.func bailingFn) none).result = .error (bailError (some 7)) ∧
    2 + 1 ∉ (recaller (.func bailingFn) none).calls ∧
    bailError (none : Option ℕ) = .jsError "Bailed without giving a reason." :=
  bail_aborts bailingFn none 2 (some 7) (by decide) (by decide)

/-- Witness for C4's amended theorem: an observer that throws `99` on the
first failed attempt makes the run fail with `99` after one invocation. -/
theorem observer_throw_aborts_witness :
    (recaller (.func alwaysFailFn)
      (some { retries := none, backoff := none, onretry := .func alwaysThrowObs })).result =
      .error (.thrown 99) ∧
    1 + 1 ∉ (recaller (.func alwaysFailFn)
      (some { retries := none, backoff := none, onretry := .func alwaysThrowObs })).calls :=
  observer_throw_aborts alwaysFailFn none none alwaysThrowObs 1 1 99 rfl rfl (by decide)
    (by decide) (by decide)

/-- Witness for C6's theorem: an operation succeeding with `42` on attempt 1
is invoked once and the run returns `42`, here with `retries = 3`. -/
theorem success_short_circuits_witness :
    (recaller (.func successFn) (some { retries := some 3 })).result = .ok 42 ∧
    (recaller (.func successFn) (some { retries := some 3 })).calls = [1] :=
  success_short_circuits successFn 42 (some { retries := some 3 }) rfl rfl
    (by intro o ho h; cases ho; exact Arg.noConfusion h)

/-- Witness for C9's theorem: a missing operation and a non-callable observer
each fail with their distinct error and an empty trace. -/
theorem invalid_inputs_fail_before_attempts_witness :
    recaller (α := ℕ) (ε := ℕ) .missing none =
      { result := .error (.jsError "fn is not a function"), calls := [],
        observerCalls := [], delaysAwaited := [] } ∧
    recaller (α := ℕ) (ε := ℕ) (.func alwaysFailFn) (some { onretry := .notAFunction }) =
      { result := .error (.jsError "onretry handler is not a function"), calls := [],
        observerCalls := [], delaysAwaited := [] } :=
  ⟨(invalid_inputs_fail_before_attempts ℕ ℕ).1 none,
   (invalid_inputs_fail_before_attempts ℕ ℕ).2.2.1 alwaysFailFn { onretry := .notAFunction }
     rfl⟩

/-- C7 (amended: a provided `base`, `cap` or `factor` of `0` is falsy and
falls back to its default via `x || d`, so the closed formula is asserted for
nonzero provided parameters): `exponentialBackoff` returns
`min(cap, base * factor^(attempt-1))` for every attempt ≥ 1, and the defaults
give 1000, 2000, 4000 on attempts 1, 2, 3. -/
theorem exponential_formula (b c f : ℚ) (hb : b ≠ 0) (hc : c ≠ 0) (hf : f ≠ 0) :
    (∀ a : ℕ, 1 ≤ a →
      exponentialBackoff (some { base := some b, cap := some c, factor := some f }) a
        = min c (b * f ^ (a - 1))) ∧
    exponentialBackoff none 1 = 1000 ∧
    exponentialBackoff none 2 = 2000 ∧
    exponentialBackoff none 3 = 4000 := by
  refine ⟨?_, ?_, ?_, ?_⟩
  · intro a _
    simp [exponentialBackoff, orDefault, hb, hc, hf]
  · norm_num [exponentialBackoff, orDefault]
  · norm_num [exponentialBackoff, orDefault]
  · norm_num [exponentialBackoff, orDefault]

/-- Witness for C7's amended theorem at `base = 5`, `cap = 7`, `factor = 3`,
attempt 2 (where the cap binds), plus a default-parameters sample. -/
theorem exponential_formula_witness :
    exponentialBackoff (some { base := some 5, cap := some 7, factor := some 3 }) 2
      = min 7 (5 * 3 ^ (2 - 1)) ∧
    exponentialBackoff none 2 = 2000 :=
  ⟨(exponential_formula 5 7 3 (by norm_num) (by norm_num) (by norm_num)).1 2 (by norm_num),
   (exponential_formula 5 7 3 (by norm_num) (by norm_num) (by norm_num)).2.2.1⟩

/-- C7 counterexample: with a provided `base = 0` the code falls back to the
default base 1000, so `f(1) = 1000`, while the claimed formula demands
`min(cap, 0 * factor^0) = 0`. -/
theorem exponential_zero_base_counterexample :
    exponentialBackoff (some { base := some 0, cap := some 60000, factor := some 2 }) 1
      = 1000 ∧
    min (60000 : ℚ) (0 * 2 ^ (1 - 1)) = 0 ∧
    (1000 : ℚ) ≠ 0 := by
  norm_num [exponentialBackoff, orDefault]

/-- C10: passing `0` for a numeric parameter of any backoff factory is falsy
and is treated exactly like omitting the parameter: `constantBackoff(0)` is
the constant 5000, `exponentialBackoff` with a zero `base`/`cap`/`factor`
behaves as with that option absent (defaults 1000/60000/2), and
`decorrelatedJitterBackoff({times: 0})` behaves as `times` absent (default 3). -/
theorem zero_numeric_options_use_defaults :
    (∀ a : ℕ, constantBackoff (some 0) a = 5000) ∧
    (∀ (c f : Option ℚ) (a : ℕ),
      exponentialBackoff (some { base := some 0, cap := c, factor := f }) a
        = exponentialBackoff (some { base := none, cap := c, factor := f }) a) ∧
    (∀ (b f : Option ℚ) (a : ℕ),
      exponentialBackoff (some { base := b, cap := some 0, factor := f }) a
        = exponentialBackoff (some { base := b, cap := none, factor := f }) a) ∧
    (∀ (b c : Option ℚ) (a : ℕ),
      exponentialBackoff (some { base := b, cap := c, factor := some 0 }) a
        = exponentialBackoff (some { base := b, cap := c, factor := none }) a) ∧
    (∀ b c : Option ℚ,
      decorrelatedJitterBackoff (some { base := b, cap := c, times := some 0 })
        = decorrelatedJitterBackoff (some { base := b, cap := c, times := none })) := by
  refine ⟨?_, ?_, ?_, ?_, ?_⟩
  · intro a
    simp [constantBackoff, orDefault]
  · intro c f a
    simp [exponentialBackoff, orDefault]
  · intro b f a
    simp [exponentialBackoff, orDefault]
  · intro b c a
    simp [exponentialBackoff, orDefault]
  · intro b c
    simp [decorrelatedJitterBackoff, orDefault]

/-- C5 (amended: the claimed bounds hold — and the value is an integer — when
the exponential delay `g = exponentialBackoff(opts)(attempt)` is an even
nonnegative integer `2k`; for odd `g` the value is a half-integer and can
exceed `g` by `1/2`, see the counterexample): for every random sample
`r ∈ [0,1)`, `equalJitterBackoff` returns an integer `v` with
`g/2 ≤ v ≤ g`. -/
theorem equalJitter_bounds (opts : Option ExpOpts) (attempt : ℕ) (r : ℚ)
    (h0 : 0 ≤ r) (h1 : r < 1) (k : ℤ) (hk : 0 ≤ k)
    (hg : exponentialBackoff opts attempt = 2 * k) :
    (∃ n : ℤ, equalJitterBackoff opts attempt r = n) ∧
    exponentialBackoff opts attempt / 2 ≤ equalJitterBackoff opts attempt r ∧
    equalJitterBackoff opts attempt r ≤ exponentialBackoff opts attempt := by
  have hk' : (0 : ℚ) ≤ (k : ℚ) := by exact_mod_cast hk
  have hhalf : exponentialBackoff opts attempt / 2 = (k : ℚ) := by rw [hg]; ring
  have hval : equalJitterBackoff opts attempt r
      = (k : ℚ) + ((⌊r * ((k : ℚ) + 1)⌋ : ℤ) : ℚ) := by
    simp only [equalJitterBackoff, randomBetween, hhalf, sub_zero, add_zero]
  have hfl0 : (0 : ℤ) ≤ ⌊r * ((k : ℚ) + 1)⌋ := by
    apply Int.floor_nonneg.mpr
    exact mul_nonneg h0 (by linarith)
  have hflk : ⌊r * ((k : ℚ) + 1)⌋ ≤ k := by
    have hlt : r * ((k : ℚ) + 1) < ((k + 1 : ℤ) : ℚ) := by
      push_cast
      have hpos : (0 : ℚ) < (k : ℚ) + 1 := by linarith
      calc r * ((k : ℚ) + 1) < 1 * ((k : ℚ) + 1) := mul_lt_mul_of_pos_right h1 hpos
        _ = (k : ℚ) + 1 := one_mul _
    exact Int.lt_add_one_iff.mp (Int.floor_lt.mpr hlt)
  have hfl0' : (0 : ℚ) ≤ ((⌊r * ((k : ℚ) + 1)⌋ : ℤ) : ℚ) := by exact_mod_cast hfl0
  have hflk' : ((⌊r * ((k : ℚ) + 1)⌋ : ℤ) : ℚ) ≤ (k : ℚ) := by exact_mod_cast hflk
  refine ⟨⟨k + ⌊r * ((k : ℚ) + 1)⌋, by rw [hval]; push_cast; ring⟩, ?_, ?_⟩
  · rw [hval, hhalf]
    linarith
  · rw [hval, hg]
    linarith

/-- Witness for C5's amended theorem with the default options at attempt 1
(`g = 1000 = 2 * 500`) and `r = 1/2`. -/
theorem equalJitter_bounds_witness :
    (∃ n : ℤ, equalJitterBackoff none 1 (1/2) = n) ∧
    exponentialBackoff none 1 / 2 ≤ equalJitterBackoff none 1 (1/2) ∧
    equalJitterBackoff none 1 (1/2) ≤ exponentialBackoff none 1 :=
  equalJitter_bounds none 1 (1/2) (by norm_num) (by norm_num) 500 (by norm_num)
    (by norm_num [exponentialBackoff, orDefault])

/-- C5 counterexample: with `base = 1` (so `g = exponential(1) = 1` is odd)
and `r = 2/3`, the returned value is `3/2`: it exceeds the exponential delay
`1` and is not an integer number of milliseconds. -/
theorem equalJitter_odd_counterexample :
    equalJitterBackoff (some { base := some 1 }) 1 (2/3) = 3/2 ∧
    exponentialBackoff (some { base := some 1 }) 1 = 1 ∧
    ¬ ((3/2 : ℚ) ≤ 1) ∧
    ∀ n : ℤ, (3/2 : ℚ) ≠ n := by
  refine ⟨?_, ?_, by norm_num, ?_⟩
  · norm_num [equalJitterBackoff, exponentialBackoff, orDefault, randomBetween]
  · norm_num [exponentialBackoff, orDefault]
  · intro n hn
    have h2 : (3 : ℚ) = 2 * (n : ℚ) := by linarith
    have h3 : (3 : ℤ) = 2 * n := by exact_mod_cast h2
    omega

/-- `randomBetween(min, max)` with integer bounds `min ≤ max` and a sample
`r ∈ [0,1)` returns an integer in `[min, max]`. -/
theorem randomBetween_bounds (m M r : ℚ) (km kM : ℤ) (hm : m = km) (hM : M = kM)
    (hle : m ≤ M) (h0 : 0 ≤ r) (h1 : r < 1) :
    m ≤ randomBetween m M r ∧ randomBetween m M r ≤ M ∧
      ∃ z : ℤ, randomBetween m M r = z := by
  subst hm
  subst hM
  have hle' : ((km : ℚ)) ≤ (kM : ℚ) := hle
  have hd : (0 : ℚ) < (kM : ℚ) - km + 1 := by linarith
  have hx0 : ((km : ℤ) : ℚ) ≤ r * ((kM : ℚ) - km + 1) + km := by
    have := mul_nonneg h0 (le_of_lt hd)
    linarith
  have hx1 : r * ((kM : ℚ) - km + 1) + km < ((kM + 1 : ℤ) : ℚ) := by
    have : r * ((kM : ℚ) - km + 1) < (kM : ℚ) - km + 1 := by
      calc r * ((kM : ℚ) - km + 1) < 1 * ((kM : ℚ) - km + 1) :=
            mul_lt_mul_of_pos_right h1 hd
        _ = (kM : ℚ) - km + 1 := one_mul _
    push_cast
    linarith
  unfold randomBetween
  refine ⟨?_, ?_, ⟨_, rfl⟩⟩
  · exact_mod_cast Int.le_floor.mpr hx0
  · exact_mod_cast Int.lt_add_one_iff.mp (Int.floor_lt.mpr hx1)

/-- Invariant of the decorrelated-jitter generator with integer parameters
`1 ≤ base ≤ cap` and `times ≥ 1`, starting from an integer `lastSleep = s`
with `base ≤ s ≤ cap`: every produced value is `min(cap, u)` for some
`u ∈ [base, prev * times]`, where `prev` is the preceding produced value (`s`
for the first call), and never exceeds `cap`. -/
theorem DJState.run_bounds (b c t : ℚ) (kb kc kt : ℤ) (hb : b = kb) (hc : c = kc)
    (ht : t = kt) (hb1 : 1 ≤ b) (hbc : b ≤ c) (ht1 : 1 ≤ t) :
    ∀ rs : List ℚ, (∀ r ∈ rs, 0 ≤ r ∧ r < 1) →
      ∀ (s : ℚ) (ks : ℤ), s = ks → b ≤ s → s ≤ c →
        ∀ i, i < (DJState.run ⟨b, c, t, s⟩ rs).length →
          (DJState.run ⟨b, c, t, s⟩ rs).getD i 0 ≤ c ∧
          ∃ u : ℚ, b ≤ u ∧ u ≤ (s :: DJState.run ⟨b, c, t, s⟩ rs).getD i 0 * t ∧
            (DJState.run ⟨b, c, t, s⟩ rs).getD i 0 = min c u := by
  intro rs
  induction rs with
  | nil =>
    intro _ s ks _ _ _ i hi
    simp [DJState.run] at hi
  | cons r rs ih =>
    intro hr s ks hs hbs hsc i hi
    obtain ⟨hr0, hr1⟩ := hr r (List.mem_cons_self r rs)
    have hrs' : ∀ r' ∈ rs, 0 ≤ r' ∧ r' < 1 := fun r' h => hr r' (List.mem_cons_of_mem r h)
    have hs1 : (1 : ℚ) ≤ s := le_trans hb1 hbs
    have hst : s * t = ((ks * kt : ℤ) : ℚ) := by
      rw [hs, ht]
      push_cast
      ring
    have hble : b ≤ s * t := by nlinarith
    obtain ⟨hrb1, hrb2, z, hz⟩ := randomBetween_bounds b (s * t) r kb (ks * kt) hb hst hble
      hr0 hr1
    have hvc : min c (randomBetween b (s * t) r) ≤ c := min_le_left _ _
    have hbv : b ≤ min c (randomBetween b (s * t) r) := le_min hbc hrb1
    have hvk : ∃ kv : ℤ, min c (randomBetween b (s * t) r) = kv := by
      rcases le_total c (randomBetween b (s * t) r) with h | h
      · exact ⟨kc, by rw [min_eq_left h, hc]⟩
      · exact ⟨z, by rw [min_eq_right h, hz]⟩
    obtain ⟨kv, hkv⟩ := hvk
    have hrun : DJState.run ⟨b, c, t, s⟩ (r :: rs) =
        min c (randomBetween b (s * t) r) ::
          DJState.run ⟨b, c, t, min c (randomBetween b (s * t) r)⟩ rs := by
      simp [DJState.run, DJState.next]
    rw [hrun] at hi ⊢
    rcases i with _ | j
    · refine ⟨hvc, randomBetween b (s * t) r, hrb1, ?_, ?_⟩
      · simpa using hrb2
      · simp
    · have hj := ih hrs' (min c (randomBetween b (s * t) r)) kv hkv hbv hvc j
        (by simpa using hi)
      simpa using hj

/-- C8 (amended: the ranges hold for integer parameters with
`1 ≤ base ≤ cap` and `times ≥ 1`; with `cap < base` the claimed range
`[base, prev*times]` can be empty while the generator still returns `cap`,
see the counterexample): for every sequence of random samples in `[0,1)`,
call `i` of the generator returns `min(cap, u)` for some
`u ∈ [base, prev_i * times]` — where `prev_0 = base` (so the first call's
range is `[base, base*times]`) and `prev_{i+1}` is call `i`'s value — and in
particular no call ever returns a value exceeding `cap`. -/
theorem decorrelatedJitter_range (b c t : ℚ) (kb kc kt : ℤ)
    (hb : b = kb) (hc : c = kc) (ht : t = kt)
    (hb1 : 1 ≤ b) (hbc : b ≤ c) (ht1 : 1 ≤ t)
    (rs : List ℚ) (hrs : ∀ r ∈ rs, 0 ≤ r ∧ r < 1) :
    ∀ i, i < ((decorrelatedJitterBackoff
        (some { base := some b, cap := some c, times := some t })).run rs).length →
      ((decorrelatedJitterBackoff
        (some { base := some b, cap := some c, times := some t })).run rs).getD i 0 ≤ c ∧
      ∃ u : ℚ, b ≤ u ∧
        u ≤ (b :: (decorrelatedJitterBackoff
          (some { base := some b, cap := some c, times := some t })).run rs).getD i 0 * t ∧
        ((decorrelatedJitterBackoff
          (some { base := some b, cap := some c, times := some t })).run rs).getD i 0
          = min c u := by
  have hbne : b ≠ 0 := by intro h; rw [h] at hb1; linarith
  have hcne : c ≠ 0 := by intro h; rw [h] at hbc; linarith
  have htne : t ≠ 0 := by intro h; rw [h] at ht1; linarith
  have hred : decorrelatedJitterBackoff
      (some { base := some b, cap := some c, times := some t }) =
      (⟨b, c, t, b⟩ : DJState) := by
    simp [decorrelatedJitterBackoff, orDefault, hbne, hcne, htne]
  rw [hred]
  exact DJState.run_bounds b c t kb kc kt hb hc ht hb1 hbc ht1 rs hrs b kb hb le_rfl hbc

/-- Witness for C8's amended theorem: default parameters
(`base 1000, cap 60000, times 3`), one call with `r = 1/2`. -/
theorem decorrelatedJitter_range_witness :
    ((decorrelatedJitterBackoff
      (some { base := some 1000, cap := some 60000, times := some 3 })).run [1/2]).getD 0 0
      ≤ 60000 ∧
    ∃ u : ℚ, 1000 ≤ u ∧
      u ≤ ((1000 : ℚ) :: (decorrelatedJitterBackoff
        (some { base := some 1000, cap := some 60000, times := some 3 })).run [1/2]).getD 0 0
        * 3 ∧
      ((decorrelatedJitterBackoff
        (some { base := some 1000, cap := some 60000, times := some 3 })).run [1/2]).getD 0 0
        = min 60000 u :=
  decorrelatedJitter_range 1000 60000 3 1000 60000 3 (by norm_num) (by norm_num)
    (by norm_num) (by norm_num) (by norm_num) (by norm_num) [1/2]
    (by intro r hr; rw [List.mem_singleton] at hr; subst hr; norm_num) 0
    (by simp [DJState.run])

/-- C8 counterexample: with `base = 1000, cap = 10, times = 3` and random
samples `0`, both calls return `cap = 10`, but the second call's claimed
range `[base, firstValue*times] = [1000, 30]` is empty: no `u` in it
satisfies `secondValue = min(cap, u)`. -/
theorem decorrelatedJitter_cap_counterexample :
    (decorrelatedJitterBackoff
      (some { base := some 1000, cap := some 10, times := some 3 })).run [0, 0] = [10, 10] ∧
    ¬ ∃ u : ℚ, 1000 ≤ u ∧
        u ≤ ((decorrelatedJitterBackoff
          (some { base := some 1000, cap := some 10, times := some 3 })).run [0, 0]).getD 0 0
          * 3 ∧
        ((decorrelatedJitterBackoff
          (some { base := some 1000, cap := some 10, times := some 3 })).run [0, 0]).getD 1 0
          = min 10 u := by
  have hrun : (decorrelatedJitterBackoff
      (some { base := some 1000, cap := some 10, times := some 3 })).run [0, 0] = [10, 10] := by
    norm_num [DJState.run, DJState.next, decorrelatedJitterBackoff, orDefault, randomBetween,
      min_def]
  refine ⟨hrun, ?_⟩
  rw [hrun]
  rintro ⟨u, hu1, hu2, _⟩
  norm_num at hu2
  linarith

end Recaller
